import Mathlib

/-
Verification of the SRP-6a client implementation (src/client.rs).

Byte strings are modelled as `List Nat` (each entry a byte value), big
unsigned integers (`BigUint`) as `Nat`, and the caller-selected digest
algorithm as an arbitrary function `H : List Nat → List Nat`.  The
streaming digest interface (`Digest::new` / `input` / `result`) is
modelled by explicit buffer accumulation.  Fallible operations return
`Except SrpAuthError`.
-/

/-- Little-endian interpretation of a byte string as an unsigned integer,
mirroring `BigUint::from_bytes_le`. -/
def fromBytesLE : List Nat → Nat
  | [] => 0
  | b :: t => b + 256 * fromBytesLE t

/-- Fuel-indexed base-256 digit extraction (little-endian, most significant
digit last, no trailing zero digits).  The fuel argument only makes the
recursion structural; `n` halvings are always enough fuel. -/
def natLEBytesFuel : Nat → Nat → List Nat
  | 0, _ => []
  | fuel + 1, n => if n = 0 then [] else n % 256 :: natLEBytesFuel fuel (n / 256)

/-- Little-endian serialization of an unsigned integer, mirroring
`BigUint::to_bytes_le` (which returns `[0]` for zero). -/
def toBytesLE (n : Nat) : List Nat :=
  if n = 0 then [0] else natLEBytesFuel n n

/-- Fuel-indexed bit-length computation. -/
def bitsFuel : Nat → Nat → Nat
  | 0, _ => 0
  | fuel + 1, n => if n = 0 then 0 else bitsFuel fuel (n / 2) + 1

/-- Number of bits of an unsigned integer, mirroring `BigUint::bits`
(zero for zero, `floor(log2 n) + 1` otherwise). -/
def bits (n : Nat) : Nat := bitsFuel n n

/-- Streaming digest state: `Digest::new` starts with an empty buffer. -/
def digest_new : List Nat := []

/-- Streaming digest state: `Digest::input` appends a message fragment. -/
def digest_input (st m : List Nat) : List Nat := st ++ m

/-- Streaming digest state: `Digest::result` hashes the accumulated buffer
with the caller-selected algorithm `H`. -/
def digest_result (H : List Nat → List Nat) (st : List Nat) : List Nat := H st

/-- One-shot digest, mirroring `D::digest`. -/
def digest_one (H : List Nat → List Nat) (m : List Nat) : List Nat := H m

/-- Modelled from the spec: `types::SrpParams` is not among the sources;
per the data model it is the immutable tuple of modulus N, generator g and
multiplier k. -/
structure SrpParams where
  n : Nat
  g : Nat
  k : Nat
  deriving DecidableEq, Repr

/-- Modelled from the spec: the modular exponentiation primitive
`tools::powm` is not among the sources; its contract is that it returns
`base ^ exponent mod modulus`. -/
def tools.powm (base ex m : Nat) : Nat := base ^ ex % m

/-- Modelled from the spec: `SrpParams::powm` is not among the sources; at
its call sites (`A = g^a mod N`, `verifier = g^x mod N`, `interm` uses
`g^x mod N`) it is exponentiation of the generator g modulo N. -/
def SrpParams.powm (p : SrpParams) (ex : Nat) : Nat := tools.powm p.g ex p.n

/-- Modelled from the spec: `types::SrpAuthError` is not among the sources;
it carries a human-readable description, as shown by its construction
sites in `client.rs`. -/
structure SrpAuthError where
  description : String
  deriving DecidableEq, Repr

/-- SRP client state before handshake with the server (`SrpClient`). -/
structure SrpClient where
  params : SrpParams
  a : Nat
  a_pub : Nat
  deriving DecidableEq, Repr

/-- SRP client state after handshake with the server (`SrpClientVerifier`). -/
structure SrpClientVerifier where
  proof : List Nat
  server_proof : List Nat
  key : List Nat
  deriving DecidableEq, Repr

/-- User private key derivation as described in SRP-6a (`srp6a_private_key`). -/
def srp6a_private_key (H : List Nat → List Nat) (username password salt : List Nat) :
    List Nat :=
  let p :=
    digest_result H (digest_input (digest_input (digest_input digest_new username) [58]) password)
  digest_result H (digest_input (digest_input digest_new salt) p)

/-- Create a new SRP client instance (`SrpClient::new`).  The random source
is modelled as a stream of bytes `rng : Nat → Fin 256`; the code takes the
first `bits(N) / 8` bytes of the stream. -/
def SrpClient.new (params : SrpParams) (rng : Nat → Fin 256) : SrpClient :=
  let l := bits params.n / 8
  let buf := (List.range l).map fun i => (rng i).val
  let a := fromBytesLE buf
  let a_pub := params.powm a
  { params := params, a := a, a_pub := a_pub }

/-- Password verifier for user registration (`SrpClient::get_password_verifier`). -/
def SrpClient.get_password_verifier (c : SrpClient) (private_key : List Nat) : List Nat :=
  let x := fromBytesLE private_key
  let v := c.params.powm x
  toBytesLE v

/-- Modular subtraction as written inline in `SrpClient::calc_key`: if
`b_pub > interm` subtract directly, otherwise add N before subtracting
(the comment in the source notes that `(kv + g^b) < kv` can happen
because the operations are done modulo N). -/
def modSub (b_pub interm n : Nat) : Nat :=
  if interm < b_pub then (b_pub - interm) % n else (n + b_pub - interm) % n

/-- Shared-secret and session-key computation (`SrpClient::calc_key`). -/
def SrpClient.calc_key (H : List Nat → List Nat) (c : SrpClient) (b_pub x u : Nat) :
    List Nat :=
  let n := c.params.n
  let interm := (c.params.k * c.params.powm x) % n
  let v := modSub b_pub interm n
  let s := tools.powm v (c.a + (u * x) % n) n
  digest_one H (toBytesLE s)

/-- The scrambling parameter computed at the start of
`SrpClient::process_reply`: `u = H(A || B)` where `A` is the serialized
public ephemeral and `B` is the raw reply bytes exactly as received. -/
def reply_u (H : List Nat → List Nat) (c : SrpClient) (b_pub : List Nat) : Nat :=
  fromBytesLE
    (digest_result H (digest_input (digest_input digest_new (toBytesLE c.a_pub)) b_pub))

/-- Process the server reply to the handshake (`SrpClient::process_reply`). -/
def SrpClient.process_reply (H : List Nat → List Nat) (c : SrpClient)
    (private_key b_pub : List Nat) : Except SrpAuthError SrpClientVerifier :=
  let u := reply_u H c b_pub
  let b_pub := fromBytesLE b_pub
  if b_pub % c.params.n = 0 then
    Except.error ⟨ "Malicious b_pub value" ⟩
  else
    let x := fromBytesLE private_key
    let key := SrpClient.calc_key H c b_pub x u
    let proof :=
      digest_result H
        (digest_input (digest_input (digest_input digest_new (toBytesLE c.a_pub))
          (toBytesLE b_pub)) key)
    let server_proof :=
      digest_result H
        (digest_input (digest_input (digest_input digest_new (toBytesLE c.a_pub)) proof) key)
    Except.ok { proof := proof, server_proof := server_proof, key := key }

/-- Public ephemeral value for handshaking (`SrpClient::get_a_pub`). -/
def SrpClient.get_a_pub (c : SrpClient) : List Nat := toBytesLE c.a_pub

/-- Shared secret key without server authentication (`SrpClientVerifier::get_key`). -/
def SrpClientVerifier.get_key (v : SrpClientVerifier) : List Nat := v.key

/-- Verification data for sending to the server (`SrpClientVerifier::get_proof`). -/
def SrpClientVerifier.get_proof (v : SrpClientVerifier) : List Nat := v.proof

/-- Verify the server reply (`SrpClientVerifier::verify_server`). -/
def SrpClientVerifier.verify_server (v : SrpClientVerifier) (reply : List Nat) :
    Except SrpAuthError (List Nat) :=
  if v.server_proof ≠ reply then
    Except.error ⟨ "Incorrect server proof" ⟩
  else
    Except.ok v.key

/-- Concrete digest used for witnesses: hashes a message to the one-byte
encoding of its length. -/
def Hlen : List Nat → List Nat := fun l => [l.length % 256]

/-- Concrete client state used for witnesses. -/
def sampleClient : SrpClient :=
  { params := { n := 7, g := 3, k := 2 }, a := 2, a_pub := 2 }

/-- Concrete post-handshake verifier state used for witnesses. -/
def sampleVerifier : SrpClientVerifier :=
  { proof := [1], server_proof := [2], key := [3] }

/-- Second concrete post-handshake verifier state used for witnesses. -/
def sampleVerifier2 : SrpClientVerifier :=
  { proof := [4], server_proof := [5], key := [6] }

/-- Concrete client state sharing the parameters of `sampleClient` but with
a different ephemeral secret, used for witnesses. -/
def sampleClient2 : SrpClient :=
  { params := { n := 7, g := 3, k := 2 }, a := 5, a_pub := 1 }

/-- Concrete domain parameters with an 8-bit modulus, used for witnesses. -/
def smallParams : SrpParams := { n := 129, g := 2, k := 3 }

/-- Concrete random byte stream that always yields 200, used for witnesses. -/
def rng200 : Nat → Fin 256 := fun _ => 200

/-- The verifier state produced by a concrete successful `process_reply`
run, used for witnesses. -/
def okVerifier : SrpClientVerifier :=
  { proof := [3], server_proof := [3], key := [1] }

/-- A list of byte values (each below 256) denotes, little-endian, an
integer below `256 ^ length`. -/
theorem fromBytesLE_lt (bs : List Nat) (h : ∀ x ∈ bs, x < 256) :
    fromBytesLE bs < 256 ^ bs.length := by
  induction bs with
  | nil => simp [fromBytesLE]
  | cons b t ih =>
    have hb : b < 256 := h b (List.mem_cons_self b t)
    have ht := ih fun x hx => h x (List.mem_cons_of_mem b hx)
    simp only [fromBytesLE, List.length_cons]
    calc b + 256 * fromBytesLE t < 256 * (fromBytesLE t + 1) := by omega
      _ ≤ 256 * 256 ^ t.length := Nat.mul_le_mul_left 256 ht
      _ = 256 ^ (t.length + 1) := by ring

/-- The inline modular subtraction of `calc_key` agrees with mathematical
subtraction modulo `n` and stays below `n`. -/
theorem modSub_spec (b y n : Nat) (h : y < n) :
    ((modSub b y n : Nat) : Int) = ((b : Int) - (y : Int)) % (n : Int) ∧
      modSub b y n < n := by
  have hn : 0 < n := Nat.lt_of_le_of_lt (Nat.zero_le y) h
  constructor
  · unfold modSub
    by_cases hb : y < b
    · rw [if_pos hb]
      push_cast [Nat.cast_sub hb.le]
      rfl
    · rw [if_neg hb]
      have hle : y ≤ n + b := by omega
      push_cast [Nat.cast_sub hle]
      have hrw : (n : Int) + b - y = (b - y) + n := by ring
      rw [hrw]
      simp [Int.add_mul_emod_self_left]
  · unfold modSub
    by_cases hb : y < b
    · rw [if_pos hb]; exact Nat.mod_lt _ hn
    · rw [if_neg hb]; exact Nat.mod_lt _ hn

/-- C1: whenever the received `b_pub` bytes denote an integer `B` with
`B mod N = 0` (this includes `B = 0` and `B = N`), `process_reply` returns
the malicious-public-value error, and the result does not depend on the
private key, so no key material derived from `B` and the private key is
computed on this path. -/
theorem process_reply_rejects_zero (H : List Nat → List Nat) (c : SrpClient)
    (pk pk2 b : List Nat) (h : fromBytesLE b % c.params.n = 0) :
    SrpClient.process_reply H c pk b = Except.error ⟨ "Malicious b_pub value" ⟩ ∧
      SrpClient.process_reply H c pk2 b = SrpClient.process_reply H c pk b := by
  constructor
  · simp [SrpClient.process_reply, h]
  · simp [SrpClient.process_reply, h]

/-- Witness for C1, at `B = N` and at `B = 0`. -/
theorem process_reply_rejects_zero_witness :
    (fromBytesLE [7] % sampleClient.params.n = 0 ∧
      SrpClient.process_reply Hlen sampleClient [1] [7] =
        Except.error ⟨ "Malicious b_pub value" ⟩ ∧
      SrpClient.process_reply Hlen sampleClient [9] [7] =
        SrpClient.process_reply Hlen sampleClient [1] [7]) ∧
    (fromBytesLE [0] % sampleClient.params.n = 0 ∧
      SrpClient.process_reply Hlen sampleClient [1] [0] =
        Except.error ⟨ "Malicious b_pub value" ⟩ ∧
      SrpClient.process_reply Hlen sampleClient [9] [0] =
        SrpClient.process_reply Hlen sampleClient [1] [0]) :=
  ⟨⟨rfl, process_reply_rejects_zero Hlen sampleClient [1] [9] [7] rfl⟩,
   ⟨rfl, process_reply_rejects_zero Hlen sampleClient [1] [9] [0] rfl⟩⟩

/-- C2: `verify_server` returns the session key exactly when the reply is
byte-for-byte equal to the internally computed server proof `M2`; on any
mismatch it returns the server-authentication-failure error, so the key is
not released. -/
theorem verify_server_iff (v : SrpClientVerifier) (r : List Nat) :
    (SrpClientVerifier.verify_server v r = Except.ok v.key ↔ r = v.server_proof) ∧
      (r ≠ v.server_proof →
        SrpClientVerifier.verify_server v r = Except.error ⟨ "Incorrect server proof" ⟩) := by
  unfold SrpClientVerifier.verify_server
  by_cases h : v.server_proof = r
  · subst h
    simp
  · constructor
    · rw [if_pos h]
      constructor
      · intro habs
        exact absurd habs (by simp)
      · intro hr
        exact absurd hr.symm h
    · intro hr
      rw [if_pos h]

/-- Witness for C2: a mismatching reply is rejected and the exact server
proof releases the key. -/
theorem verify_server_iff_witness :
    SrpClientVerifier.verify_server sampleVerifier [9] =
        Except.error ⟨ "Incorrect server proof" ⟩ ∧
      SrpClientVerifier.verify_server sampleVerifier [2] = Except.ok sampleVerifier.key :=
  ⟨(verify_server_iff sampleVerifier [9]).2 (by decide),
   (verify_server_iff sampleVerifier [2]).1.mpr rfl⟩

/-- C10: whenever `verify_server` succeeds, the key it returns is exactly
the key that `get_key` returns on the same verifier state. -/
theorem verify_server_key_eq_get_key (v : SrpClientVerifier) (r k : List Nat)
    (h : SrpClientVerifier.verify_server v r = Except.ok k) :
    k = SrpClientVerifier.get_key v := by
  unfold SrpClientVerifier.verify_server at h
  by_cases hr : v.server_proof = r
  · rw [if_neg (by simp [hr])] at h
    have := Except.ok.inj h
    exact this.symm
  · rw [if_pos hr] at h
    exact absurd h (by simp)

/-- Witness for C10. -/
theorem verify_server_key_eq_get_key_witness :
    SrpClientVerifier.verify_server sampleVerifier2 [5] = Except.ok [6] ∧
      [6] = SrpClientVerifier.get_key sampleVerifier2 :=
  ⟨rfl, verify_server_key_eq_get_key sampleVerifier2 [5] [6] rfl⟩

/-- C5: for `interm < N`, the inline modular subtraction of `calc_key`
computes the mathematical `(B - interm) mod N`: the `N` added in the
`B ≤ interm` branch keeps the unsigned subtraction from underflowing
(`interm ≤ N + B`), and the result is a natural number below `N`. -/
theorem modSub_eq_int_emod (b y n : Nat) (h : y < n) :
    y ≤ n + b ∧
      ((modSub b y n : Nat) : Int) = ((b : Int) - (y : Int)) % (n : Int) ∧
      modSub b y n < n :=
  ⟨by omega, (modSub_spec b y n h).1, (modSub_spec b y n h).2⟩

/-- Witness for C5, in the `B ≤ interm` branch. -/
theorem modSub_eq_int_emod_witness :
    (6 : Nat) < 7 ∧
      (6 ≤ 7 + 3 ∧
        ((modSub 3 6 7 : Nat) : Int) = ((3 : Int) - (6 : Int)) % (7 : Int) ∧
        modSub 3 6 7 < 7) :=
  ⟨by decide, modSub_eq_int_emod 3 6 7 (by decide)⟩

/-- C4: inside `calc_key` the shared secret is
`S = v ^ (a + (u * x mod N)) mod N`: the sub-term `u * x` is reduced
modulo `N` before being added to `a`, the resulting exponent is not
reduced modulo `N`, and `v` is the mathematical `(B - interm) mod N`. -/
theorem calc_key_formula (H : List Nat → List Nat) (c : SrpClient) (b x u : Nat)
    (h : 0 < c.params.n) :
    SrpClient.calc_key H c b x u =
      digest_one H (toBytesLE
        ((((b : Int) -
            (((c.params.k * (c.params.g ^ x % c.params.n)) % c.params.n : Nat) : Int)) %
              (c.params.n : Int)).toNat ^
          (c.a + u * x % c.params.n) % c.params.n)) := by
  have hlt : (c.params.k * (c.params.g ^ x % c.params.n)) % c.params.n < c.params.n :=
    Nat.mod_lt _ h
  have hspec :=
    (modSub_spec b ((c.params.k * (c.params.g ^ x % c.params.n)) % c.params.n)
      c.params.n hlt).1
  have hm : modSub b ((c.params.k * (c.params.g ^ x % c.params.n)) % c.params.n)
      c.params.n =
      (((b : Int) -
          (((c.params.k * (c.params.g ^ x % c.params.n)) % c.params.n : Nat) : Int)) %
        (c.params.n : Int)).toNat := by
    omega
  simp only [SrpClient.calc_key, SrpParams.powm, tools.powm, hm]

/-- Witness for C4. -/
theorem calc_key_formula_witness :
    0 < sampleClient.params.n ∧
      SrpClient.calc_key Hlen sampleClient 3 1 2 =
        digest_one Hlen (toBytesLE
          ((((3 : Int) -
              (((sampleClient.params.k *
                  (sampleClient.params.g ^ 1 % sampleClient.params.n)) %
                    sampleClient.params.n : Nat) : Int)) %
                (sampleClient.params.n : Int)).toNat ^
            (sampleClient.a + 2 * 1 % sampleClient.params.n) % sampleClient.params.n)) :=
  ⟨by decide, calc_key_formula Hlen sampleClient 3 1 2 (by decide)⟩

/-- C6: every verifier produced by a successful `process_reply` satisfies
the hash chaining `K = H(S serialized little-endian)`,
`M1 = H(A || B || K)` and `M2 = H(A || M1 || K)`, where `A` is the
serialized public ephemeral and `B` the canonical serialization of the
integer parsed from the reply, all with the caller-selected digest `H`. -/
theorem process_reply_hash_chain (H : List Nat → List Nat) (c : SrpClient)
    (pk b : List Nat) (v : SrpClientVerifier)
    (h : SrpClient.process_reply H c pk b = Except.ok v) :
    ∃ S : Nat,
      v.key = H (toBytesLE S) ∧
        v.proof = H (toBytesLE c.a_pub ++ toBytesLE (fromBytesLE b) ++ v.key) ∧
        v.server_proof = H (toBytesLE c.a_pub ++ v.proof ++ v.key) := by
  simp only [SrpClient.process_reply] at h
  split at h
  · exact absurd h (by simp)
  · rw [Except.ok.injEq] at h
    subst h
    refine ⟨_, rfl, ?_, ?_⟩
    · simp [digest_result, digest_input, digest_new, List.append_assoc]
    · simp [digest_result, digest_input, digest_new, List.append_assoc]

/-- Witness for C6, on a concrete successful run. -/
theorem process_reply_hash_chain_witness :
    SrpClient.process_reply Hlen sampleClient [1] [3] = Except.ok okVerifier ∧
      ∃ S : Nat,
        okVerifier.key = Hlen (toBytesLE S) ∧
          okVerifier.proof =
            Hlen (toBytesLE sampleClient.a_pub ++ toBytesLE (fromBytesLE [3]) ++
              okVerifier.key) ∧
          okVerifier.server_proof =
            Hlen (toBytesLE sampleClient.a_pub ++ okVerifier.proof ++ okVerifier.key) :=
  ⟨rfl, process_reply_hash_chain Hlen sampleClient [1] [3] okVerifier rfl⟩

/-- C7: `srp6a_private_key` computes exactly
`H(salt || H(username || ":" || password))`, with 58 the single ASCII
colon byte separating username and password in the inner digest. -/
theorem srp6a_private_key_formula (H : List Nat → List Nat)
    (username password salt : List Nat) :
    srp6a_private_key H username password salt =
      H (salt ++ H (username ++ [58] ++ password)) := by
  simp [srp6a_private_key, digest_new, digest_input, digest_result, List.append_assoc]

/-- C8: `get_password_verifier` returns the little-endian serialization of
`g ^ x mod N` with `x` the little-endian interpretation of the private
key, and it is deterministic: any client with the same domain parameters
produces the same bytes from the same private key. -/
theorem get_password_verifier_formula (c c2 : SrpClient) (pk : List Nat)
    (h : c.params = c2.params) :
    SrpClient.get_password_verifier c pk =
        toBytesLE (c.params.g ^ fromBytesLE pk % c.params.n) ∧
      SrpClient.get_password_verifier c pk = SrpClient.get_password_verifier c2 pk := by
  constructor
  · rfl
  · unfold SrpClient.get_password_verifier
    rw [h]

/-- Witness for C8: two clients with equal parameters but different
ephemeral secrets agree on the verifier. -/
theorem get_password_verifier_formula_witness :
    sampleClient.params = sampleClient2.params ∧
      (SrpClient.get_password_verifier sampleClient [1] =
          toBytesLE (sampleClient.params.g ^ fromBytesLE [1] % sampleClient.params.n) ∧
        SrpClient.get_password_verifier sampleClient [1] =
          SrpClient.get_password_verifier sampleClient2 [1]) :=
  ⟨rfl, get_password_verifier_formula sampleClient sampleClient2 [1] rfl⟩

/-- C3 (counterexample): with the 8-bit modulus 129 and a random stream
that yields the byte 200, the secret exponent drawn by `SrpClient.new`
is 200, which is not below the modulus, so the secret exponent is not
always an integer in the range from 0 to N. -/
theorem new_a_lt_n_counterexample :
    ¬ (SrpClient.new smallParams rng200).a < (SrpClient.new smallParams rng200).params.n := by
  decide

/-- C3 (amended): the secret exponent drawn by `SrpClient.new` is the
little-endian interpretation of `bits(N) / 8` bytes from the random
stream, hence below `2 ^ (8 * (bits(N) / 8))` (but not necessarily below
`N`), and the public ephemeral equals `g ^ a mod N`. -/
theorem new_a_range_and_a_pub (p : SrpParams) (rng : Nat → Fin 256) :
    (SrpClient.new p rng).a < 2 ^ (8 * (bits p.n / 8)) ∧
      (SrpClient.new p rng).a =
        fromBytesLE ((List.range (bits p.n / 8)).map fun i => (rng i).val) ∧
      (SrpClient.new p rng).a_pub = p.g ^ (SrpClient.new p rng).a % p.n := by
  refine ⟨?_, rfl, rfl⟩
  have hmem : ∀ x ∈ (List.range (bits p.n / 8)).map fun i => (rng i).val, x < 256 := by
    intro x hx
    simp only [List.mem_map] at hx
    obtain ⟨i, _, hi⟩ := hx
    rw [← hi]
    exact (rng i).isLt
  have hlt := fromBytesLE_lt ((List.range (bits p.n / 8)).map fun i => (rng i).val) hmem
  have hlen : ((List.range (bits p.n / 8)).map fun i => (rng i).val).length =
      bits p.n / 8 := by
    simp
  rw [hlen] at hlt
  calc (SrpClient.new p rng).a < 256 ^ (bits p.n / 8) := hlt
    _ = 2 ^ (8 * (bits p.n / 8)) := by
        rw [pow_mul]
        norm_num

/-- C9: there are two reply byte strings that denote the same integer but
differ as raw bytes (one has a trailing zero byte) for which the
scrambling parameter `u` of `process_reply` differs, while the canonical
re-serialization hashed into `M1` at the `B` position is identical. -/
theorem reply_u_raw_vs_canonical :
    ∃ (H : List Nat → List Nat) (c : SrpClient) (b1 b2 : List Nat),
      fromBytesLE b1 = fromBytesLE b2 ∧
        b1 ≠ b2 ∧
        reply_u H c b1 ≠ reply_u H c b2 ∧
        toBytesLE (fromBytesLE b1) = toBytesLE (fromBytesLE b2) :=
  ⟨Hlen, sampleClient, [1], [1, 0], by decide, by decide, by decide, by decide⟩
